import Mathlib

/-!
Verification of the jobdiary repository (a job/entry diary API).

The embedding follows `src/app/crud.py`, `src/app/main.py`, `src/app/models.py`
and `src/app/schemas.py`:

* JSON-like values (the JSONB columns `job_state` and `extracted`) are the
  inductive `JsonVal`; Python dicts are insertion-ordered association lists
  (`JsonObj`) with duplicate-free keys, and `dict.update` is `dictUpdate`.
* UUIDs are modelled as their 128-bit integer value (`Nat`); Python's
  `uuid.UUID(str)` constructor is `parseUUID`.
* The database is a `Store`: the `jobs` and `entries` tables as lists.
  SQLAlchemy queries `filter(...).order_by(desc(...)).limit(n)` become
  `List.filter`, `List.insertionSort` with a descending relation, `List.take`.
* Timestamps (`datetime.now`) and generated ids (`uuid4`) are passed in
  explicitly as `now` / fresh-id arguments.
* SQL `ILIKE` pattern matching (used by `search_entries`) is `likeMatch`,
  including `%`, `_` wildcards and the PostgreSQL default `\` escape.
-/

/-- JSON-like values stored in the JSONB columns (`job_state`, `extracted`). -/
inductive JsonVal where
  | str (s : String)
  | num (n : Int)
  | bool (b : Bool)
  | null
  | obj (fields : List (String × JsonVal))
  | arr (items : List JsonVal)

/-- A Python dict with string keys: an insertion-ordered association list. -/
abbrev JsonObj := List (String × JsonVal)

/-- `d[k] = v` on a Python dict: replace the value in place if the key is
present (keeping its position), otherwise append the new pair at the end. -/
def setKey (d : JsonObj) (k : String) (v : JsonVal) : JsonObj :=
  match d with
  | [] => [(k, v)]
  | (k', v') :: rest => if k' = k then (k, v) :: rest else (k', v') :: setKey rest k v

/-- Python `cur.update(patch)`: set each key/value pair of `patch`, in order. -/
def dictUpdate (cur patch : JsonObj) : JsonObj :=
  patch.foldl (fun d kv => setKey d kv.1 kv.2) cur

/-- Key lookup in a dict. -/
def lookupKey (d : JsonObj) (k : String) : Option JsonVal :=
  match d with
  | [] => none
  | (k', v') :: rest => if k' = k then some v' else lookupKey rest k

/-- Row of the `jobs` table (`src/app/models.py`, class `Job`). -/
structure Job where
  id : Nat
  user_id : String
  name : String
  address : Option String
  client_name : Option String
  status : String
  job_state : JsonObj
  created_at : Nat
  updated_at : Nat

/-- Row of the `entries` table (`src/app/models.py`, class `Entry`). -/
structure Entry where
  id : Nat
  job_id : Nat
  user_id : String
  entry_ts : Nat
  transcript : String
  extracted : JsonObj
  summary : Option String
  created_at : Nat

/-- The database: the two tables. -/
structure Store where
  jobs : List Job
  entries : List Entry

/-- Descending order on `updated_at`, used by `list_jobs`'s
`order_by(desc(Job.updated_at))`. -/
def jobAfter (a b : Job) : Prop := b.updated_at ≤ a.updated_at

instance : DecidableRel jobAfter := fun j k => Nat.decLe k.updated_at j.updated_at

instance : IsTotal Job jobAfter := ⟨fun a b => (Nat.le_total a.updated_at b.updated_at).symm⟩

instance : IsTrans Job jobAfter := ⟨fun _ _ _ h h' => Nat.le_trans h' h⟩

/-- Descending order on `entry_ts`, used by `list_entries` and
`search_entries`'s `order_by(desc(Entry.entry_ts))`. -/
def entryAfter (a b : Entry) : Prop := b.entry_ts ≤ a.entry_ts

instance : DecidableRel entryAfter := fun j k => Nat.decLe k.entry_ts j.entry_ts

instance : IsTotal Entry entryAfter := ⟨fun a b => (Nat.le_total a.entry_ts b.entry_ts).symm⟩

instance : IsTrans Entry entryAfter := ⟨fun _ _ _ h h' => Nat.le_trans h' h⟩

/-! ## Job CRUD (`src/app/crud.py`) -/

/-- `create_job`: insert a new row with status `"in_progress"`, empty state
map and both timestamps set to now.  The generated `uuid4` primary key is the
explicit argument `newId`.  Returns the updated store and the new row. -/
def create_job (s : Store) (user_id name : String)
    (address client_name : Option String) (newId now : Nat) : Store × Job :=
  let job : Job :=
    { id := newId, user_id := user_id, name := name, address := address,
      client_name := client_name, status := "in_progress", job_state := [],
      created_at := now, updated_at := now }
  ({ s with jobs := s.jobs ++ [job] }, job)

/-- `get_job`: `query(Job).filter(Job.id == job_id, Job.user_id == user_id).first()` —
the ownership check is part of the same lookup. -/
def get_job (s : Store) (job_id : Nat) (user_id : String) : Option Job :=
  s.jobs.find? (fun j => j.id == job_id && j.user_id == user_id)

/-- `list_jobs`: filter on `user_id`, order by `updated_at` descending,
truncate to `limit`. -/
def list_jobs (s : Store) (user_id : String) (limit : Nat) : List Job :=
  (((s.jobs.filter (fun j => j.user_id == user_id)).insertionSort jobAfter).take limit)

/-- `update_job`: resolve via `get_job`; on failure return `none`.  Each field
is written only when the argument is not `None`; `updated_at` is refreshed.
Returns the updated store and the updated row. -/
def update_job (s : Store) (job_id : Nat) (user_id : String)
    (status name address client_name : Option String) (now : Nat) :
    Option (Store × Job) :=
  match get_job s job_id user_id with
  | none => none
  | some job =>
    let job' : Job :=
      { job with
        status := status.getD job.status,
        name := name.getD job.name,
        address := address <|> job.address,
        client_name := client_name <|> job.client_name,
        updated_at := now }
    some ({ s with jobs := s.jobs.map (fun j => if j.id == job.id then job' else j) }, job')

/-- `update_job_state`: resolve via `get_job`, then
`current_state = job.job_state or {}` — a fresh dict only when the stored map
is falsy (empty), otherwise the loaded dict object itself —
`current_state.update(patch)` mutates it in place, and
`job.job_state = current_state` reassigns that same object.  For a non-empty
prior map SQLAlchemy's equality-based change detection therefore records no
net change: the `job_state` column is omitted from the flushed UPDATE and
`db.refresh` restores the stored map, so the patch persists only when the
prior state map was empty.  `updated_at` (a freshly created value) is always
refreshed. -/
def update_job_state (s : Store) (job_id : Nat) (user_id : String)
    (patch : JsonObj) (now : Nat) : Option (Store × Job) :=
  match get_job s job_id user_id with
  | none => none
  | some job =>
    let newState : JsonObj :=
      if job.job_state.isEmpty then dictUpdate [] patch else job.job_state
    let job' : Job := { job with job_state := newState, updated_at := now }
    some ({ s with jobs := s.jobs.map (fun j => if j.id == job.id then job' else j) }, job')

/-- `get_job_by_name`: `filter(Job.user_id == user_id, Job.name == name).first()`. -/
def get_job_by_name (s : Store) (user_id name : String) : Option Job :=
  s.jobs.find? (fun j => j.user_id == user_id && j.name == name)

/-! ## Entry CRUD (`src/app/crud.py`) -/

/-- The domain error raised by `create_entry`
(`raise ValueError(f"Job {job_id} not found for user {user_id}")`),
distinct from transport-level validation failures. -/
inductive DomainError where
  | notFound (msg : String)
deriving DecidableEq, Repr

/-- The `ValueError` message text of `create_entry`. -/
def jobNotFoundMsg (job_id : Nat) (user_id : String) : String :=
  "Job " ++ toString job_id ++ " not found for user " ++ user_id

/-- `create_entry`: verify the job belongs to the user first; raise a domain
error (and leave the store untouched) when it does not resolve.  `extracted`
defaults to the empty map and `entry_ts` to now.  The generated primary key is
`newId`. -/
def create_entry (s : Store) (user_id : String) (job_id : Nat)
    (transcript : String) (extracted : Option JsonObj) (summary : Option String)
    (entry_ts : Option Nat) (newId now : Nat) :
    Store × Except DomainError Entry :=
  match get_job s job_id user_id with
  | none => (s, .error (.notFound (jobNotFoundMsg job_id user_id)))
  | some _ =>
    let e : Entry :=
      { id := newId, job_id := job_id, user_id := user_id,
        transcript := transcript, extracted := extracted.getD [],
        summary := summary, entry_ts := entry_ts.getD now, created_at := now }
    ({ s with entries := s.entries ++ [e] }, .ok e)

/-- Row predicate of `list_entries`'s query:
`filter(Entry.job_id == job_id, Entry.user_id == user_id)`. -/
def entryOfJob (job_id : Nat) (user_id : String) (e : Entry) : Bool :=
  e.job_id == job_id && e.user_id == user_id

/-- `list_entries`: verify job ownership first and return `[]` (not an error)
when it fails; otherwise filter, order by `entry_ts` descending, truncate. -/
def list_entries (s : Store) (user_id : String) (job_id : Nat) (limit : Nat) :
    List Entry :=
  match get_job s job_id user_id with
  | none => []
  | some _ =>
    (((s.entries.filter (entryOfJob job_id user_id)).insertionSort entryAfter).take limit)

/-! ## ILIKE pattern matching (`search_entries`) -/

/-- One pattern character of SQL `ILIKE` (case-insensitive `LIKE`): `%`
matches any sequence of characters, `_` matches exactly one character, the
PostgreSQL default escape `\` makes the following character literal, and any
other character matches itself up to `Char.toLower` case folding.  Matching
is stated via `List.tails`: `%` succeeds iff the rest of the pattern matches
some suffix of the string. -/
def likeMatch : List Char → List Char → Bool
  | [], s => s.isEmpty
  | c :: p, s =>
    if c = '%' then
      (List.tails s).any (fun t => likeMatch p t)
    else if c = '\\' then
      match p, s with
      | pc :: p', d :: s' => (pc.toLower == d.toLower) && likeMatch p' s'
      | _, _ => false
    else
      match s with
      | [] => false
      | d :: s' => (if c = '_' then true else c.toLower == d.toLower) && likeMatch p s'

/-- The `ILIKE` pattern built by `search_entries`: `f"%{query}%"`.  The query
text is interpolated without escaping, so wildcards inside it stay active. -/
def searchPattern (query : String) : List Char :=
  '%' :: (query.toList ++ ['%'])

/-- Row predicate of `search_entries`'s query: same job/user scoping as
`list_entries` plus
`or_(Entry.transcript.ilike(pattern), Entry.summary.ilike(pattern))`;
an SQL `NULL` summary never matches. -/
def entryMatchesQuery (job_id : Nat) (user_id : String) (query : String)
    (e : Entry) : Bool :=
  e.job_id == job_id && e.user_id == user_id &&
    (likeMatch (searchPattern query) e.transcript.toList ||
      (match e.summary with
       | some sm => likeMatch (searchPattern query) sm.toList
       | none => false))

/-- `search_entries`: verify job ownership first and return `[]` when it
fails; otherwise filter rows whose transcript or summary matches the
`ILIKE` pattern `%query%`, order by `entry_ts` descending, truncate. -/
def search_entries (s : Store) (user_id : String) (job_id : Nat)
    (query : String) (limit : Nat) : List Entry :=
  match get_job s job_id user_id with
  | none => []
  | some _ =>
    (((s.entries.filter (entryMatchesQuery job_id user_id query)).insertionSort
        entryAfter).take limit)

/-- Modelled from the spec ("contains `query` as a case-insensitive
substring"): case-insensitive substring containment, for comparison with the
code's `ILIKE` matching. -/
def icontains (hay needle : List Char) : Bool :=
  ((hay.map Char.toLower).tails).any
    (fun t => (needle.map Char.toLower).isPrefixOf t)

/-- Modelled from the spec: the search row predicate as the spec words it —
same job/user scoping, but transcript or summary must contain the query as a
case-insensitive substring. -/
def entryMatchesSpec (job_id : Nat) (user_id : String) (query : String)
    (e : Entry) : Bool :=
  e.job_id == job_id && e.user_id == user_id &&
    (icontains e.transcript.toList query.toList ||
      (match e.summary with
       | some sm => icontains sm.toList query.toList
       | none => false))

/-- Modelled from the spec: `search_entries` as the spec describes it —
ownership gate, pure case-insensitive-substring filter, `entry_ts` descending
order, truncation to `limit`. -/
def search_entries_spec (s : Store) (user_id : String) (job_id : Nat)
    (query : String) (limit : Nat) : List Entry :=
  match get_job s job_id user_id with
  | none => []
  | some _ =>
    (((s.entries.filter (entryMatchesSpec job_id user_id query)).insertionSort
        entryAfter).take limit)

/-! ## UUID parsing (`uuid.UUID(job_name_or_id)` in the debrief endpoint) -/

/-- One left-to-right pass of Python `str.replace(pat, '')`, removing every
non-overlapping occurrence of `pat`.  Structured with explicit fuel (one unit
per consumed character) so that it computes by kernel reduction. -/
def removeAllAux : Nat → List Char → List Char → List Char
  | 0, _, s => s
  | _ + 1, _, [] => []
  | fuel + 1, pat, c :: rest =>
    if pat ≠ [] ∧ pat.isPrefixOf (c :: rest) then
      removeAllAux fuel pat (List.drop (pat.length - 1) rest)
    else
      c :: removeAllAux fuel pat rest

/-- Python `s.replace(pat, '')` for a nonempty `pat`. -/
def removeAll (pat s : List Char) : List Char :=
  removeAllAux s.length pat s

/-- Python `s.strip('{}')`: drop `{` and `}` characters from both ends. -/
def stripBraces (s : List Char) : List Char :=
  ((s.dropWhile (fun c => c = '{' ∨ c = '}')).reverse.dropWhile
      (fun c => c = '{' ∨ c = '}')).reverse

/-- Value of one hexadecimal digit, as accepted by `int(_, 16)`. -/
def hexDigitVal (c : Char) : Option Nat :=
  if '0' ≤ c ∧ c ≤ '9' then some (c.toNat - '0'.toNat)
  else if 'a' ≤ c ∧ c ≤ 'f' then some (c.toNat - 'a'.toNat + 10)
  else if 'A' ≤ c ∧ c ≤ 'F' then some (c.toNat - 'A'.toNat + 10)
  else none

/-- `int(cs, 16)` on a plain string of hex digits. -/
def hexValue (cs : List Char) : Option Nat :=
  cs.foldl
    (fun acc c =>
      match acc, hexDigitVal c with
      | some a, some d => some (a * 16 + d)
      | _, _ => none)
    (some 0)

/-- Python's `uuid.UUID(hex)` constructor on a string, as called by the
debrief endpoint: remove `urn:` and `uuid:` occurrences, strip braces,
remove hyphens, require exactly 32 characters and read them as hexadecimal.
(`int()`'s additional tolerance for signs, underscores, whitespace and a
`0x` prefix is not modelled; no claim depends on those inputs.)  The result
is the 128-bit integer value of the UUID. -/
def parseUUID (s : String) : Option Nat :=
  let cs := removeAll "urn:".toList s.toList
  let cs := removeAll "uuid:".toList cs
  let cs := stripBraces cs
  let cs := cs.filter (fun c => c ≠ '-')
  if cs.length = 32 then hexValue cs else none

/-! ## API surface (`src/app/main.py`) -/

/-- Transport-level outcome of an endpoint: an HTTP status code with either a
value or an error detail string. -/
inductive ApiResult (α : Type) where
  | ok (status : Nat) (value : α)
  | err (status : Nat) (detail : String)

/-- The status code FastAPI gives transport-level validation failures,
produced by the contract layer before the repository is reached. -/
def validationErrorStatus : Nat := 422

/-- `Query(20, ge=1, le=100)` on the `limit` parameter: absent means the
default 20; a supplied value outside 1–100 is rejected by validation. -/
def validateLimit (limit : Option Nat) : Option Nat :=
  match limit with
  | none => some 20
  | some n => if 1 ≤ n ∧ n ≤ 100 then some n else none

/-- `GET /jobs`: validate `limit`, then call `list_jobs`.  `none` stands for
a 422 validation rejection. -/
def list_jobs_endpoint (s : Store) (user_id : String) (limit : Option Nat) :
    Option (List Job) :=
  (validateLimit limit).map (fun n => list_jobs s user_id n)

/-- `POST /entries`: call `create_entry` and map the domain error
(`ValueError`) to a 404 response, success to 201. -/
def create_entry_endpoint (s : Store) (user_id : String) (job_id : Nat)
    (transcript : String) (extracted : Option JsonObj) (summary : Option String)
    (entry_ts : Option Nat) (newId now : Nat) : Store × ApiResult Entry :=
  match create_entry s user_id job_id transcript extracted summary entry_ts newId now with
  | (s', .ok e) => (s', .ok 201 e)
  | (s', .error (.notFound msg)) => (s', .err 404 msg)

/-! ## Debrief endpoint (`src/app/main.py`) -/

/-- Rendering of `datetime.now(timezone.utc).isoformat()`; the claims do not
depend on the text format, only on which instant is rendered. -/
def isoTimestamp (t : Nat) : String := toString t

/-- The state patch computed by the debrief endpoint: `last_debrief_ts` is
the current timestamp, `last_summary` is
`transcript[:200] if len(transcript) > 200 else transcript`. -/
def debriefStatePatch (transcript : String) (now : Nat) : JsonObj :=
  [("last_debrief_ts", JsonVal.str (isoTimestamp now)),
   ("last_summary", JsonVal.str
      (if transcript.length > 200 then String.mk (transcript.toList.take 200)
       else transcript))]

/-- Outcome of `POST /debrief`.  `errInternal` stands for the branch where
`update_job_state` returns `None` and `DebriefResponse(job=None, ...)` fails
response validation; it is unreachable for a store that actually contains the
resolved job. -/
inductive DebriefResult where
  | ok (job : Job) (entry : Entry) (store : Store)
  | errNotFound (detail : String)
  | errBadRequest (detail : String)
  | errInternal

/-- `POST /debrief`: try `UUID(job_name_or_id)`; on success look the job up
by id (and fail with 404 if that misses — the `except ValueError` only
catches the parse failure); on parse failure fall back to exact-name lookup
and then to creating a job with that name.  Then create an entry with the
transcript, empty extracted map and no summary (a `ValueError` here becomes
400), and finally shallow-merge the debrief state patch. -/
def debrief_endpoint (s : Store) (user_id job_name_or_id transcript : String)
    (newJobId newEntryId now : Nat) : DebriefResult :=
  let resolved : Option Job × Store :=
    match parseUUID job_name_or_id with
    | some jid => (get_job s jid user_id, s)
    | none =>
      match get_job_by_name s user_id job_name_or_id with
      | some j => (some j, s)
      | none =>
        let created := create_job s user_id job_name_or_id none none newJobId now
        (some created.2, created.1)
  match resolved with
  | (none, _) => .errNotFound "Job not found and could not be created"
  | (some job, s1) =>
    match create_entry s1 user_id job.id transcript (some []) none none newEntryId now with
    | (_, .error (.notFound msg)) => .errBadRequest msg
    | (s2, .ok entry) =>
      match update_job_state s2 job.id user_id (debriefStatePatch transcript now) now with
      | none => .errInternal
      | some (s3, job') => .ok job' entry s3

/-! ## Concrete fixtures used in witnesses and counterexamples -/

/-- A job owned by user `"A"`. -/
def jobA : Job := ⟨1, "A", "Job A", none, none, "in_progress", [], 0, 0⟩

/-- A store holding only `jobA`. -/
def storeA : Store := ⟨[jobA], []⟩

/-- A job owned by user `"u"`. -/
def jobU : Job := ⟨1, "u", "Job A", none, none, "in_progress", [], 0, 0⟩

/-- A store holding only `jobU`. -/
def storeU : Store := ⟨[jobU], []⟩

/-- A job of user `"u"` with its optional fields set. -/
def jobOpt : Job := ⟨1, "u", "Job A", some "addr", some "cli", "quoted", [], 0, 0⟩

/-- A store holding only `jobOpt`. -/
def storeOpt : Store := ⟨[jobOpt], []⟩

/-- An entry of `jobU`. -/
def entryU : Entry := ⟨10, 1, "u", 3, "Found a LEAK under sink", [], none, 3⟩

/-- A store holding `jobU` and its entry `entryU`. -/
def storeUE : Store := ⟨[jobU], [entryU]⟩

/-- The empty store. -/
def storeEmpty : Store := ⟨[], []⟩

/-! ## Helper lemmas -/

/-- A job returned by `get_job` is stored, has the requested id and belongs
to the requesting user. -/
theorem get_job_some {s : Store} {jid : Nat} {u : String} {j : Job}
    (h : get_job s jid u = some j) : j ∈ s.jobs ∧ j.id = jid ∧ j.user_id = u := by
  simp only [get_job] at h
  have hp := List.find?_some h
  have hm := List.mem_of_find?_eq_some h
  simp only [Bool.and_eq_true, beq_iff_eq] at hp
  exact ⟨hm, hp.1, hp.2⟩

/-- `get_job` resolves whenever some stored job has the requested id and
owner. -/
theorem get_job_isSome_of_mem {s : Store} {j : Job} (hm : j ∈ s.jobs) :
    ∃ j', get_job s j.id j.user_id = some j' := by
  have : (s.jobs.find? (fun k => k.id == j.id && k.user_id == j.user_id)).isSome := by
    rw [List.find?_isSome]
    exact ⟨j, hm, by simp⟩
  obtain ⟨j', hj'⟩ := Option.isSome_iff_exists.mp this
  exact ⟨j', hj'⟩

/-- A job returned by `get_job_by_name` is stored, belongs to the requesting
user and has the requested name. -/
theorem get_job_by_name_some {s : Store} {u n : String} {j : Job}
    (h : get_job_by_name s u n = some j) : j ∈ s.jobs ∧ j.user_id = u ∧ j.name = n := by
  simp only [get_job_by_name] at h
  have hp := List.find?_some h
  have hm := List.mem_of_find?_eq_some h
  simp only [Bool.and_eq_true, beq_iff_eq] at hp
  exact ⟨hm, hp.1, hp.2⟩

/-- Looking up a key that is not among the keys of a dict gives `none`. -/
theorem lookupKey_eq_none {d : JsonObj} {k : String}
    (h : k ∉ d.map Prod.fst) : lookupKey d k = none := by
  induction d with
  | nil => rfl
  | cons kv rest ih =>
    obtain ⟨dk, dv⟩ := kv
    simp only [List.map_cons, List.mem_cons] at h
    push_neg at h
    simp only [lookupKey]
    rw [if_neg (fun hk => h.1 hk.symm), ih h.2]

/-- `setKey` behaves as a pointwise overwrite at the assigned key. -/
theorem lookupKey_setKey (d : JsonObj) (k : String) (v : JsonVal) (k' : String) :
    lookupKey (setKey d k v) k' = if k = k' then some v else lookupKey d k' := by
  induction d with
  | nil =>
    by_cases hk : k = k' <;> simp [setKey, lookupKey, hk]
  | cons kv rest ih =>
    obtain ⟨dk, dv⟩ := kv
    by_cases hdk : dk = k
    · subst hdk
      by_cases hk : dk = k' <;> simp [setKey, lookupKey, hk]
    · by_cases hk' : dk = k'
      · subst hk'
        have : ¬ k = dk := fun h => hdk h.symm
        simp [setKey, lookupKey, hdk, this]
      · simp [setKey, lookupKey, hdk, hk', ih]

/-- `dictUpdate` is a shallow merge: a key present in the patch is overwritten
wholesale with the patch's value, a key absent from the patch keeps the value
of the current map. -/
theorem lookupKey_dictUpdate (cur patch : JsonObj)
    (hnd : (patch.map Prod.fst).Nodup) (k : String) :
    lookupKey (dictUpdate cur patch) k =
      (lookupKey patch k).or (lookupKey cur k) := by
  induction patch generalizing cur with
  | nil => simp [dictUpdate, lookupKey, Option.or]
  | cons kv rest ih =>
    obtain ⟨pk, pv⟩ := kv
    simp only [List.map_cons, List.nodup_cons] at hnd
    have step : dictUpdate cur ((pk, pv) :: rest) = dictUpdate (setKey cur pk pv) rest := rfl
    rw [step, ih (setKey cur pk pv) hnd.2, lookupKey_setKey]
    by_cases hk : pk = k
    · subst hk
      rw [lookupKey_eq_none hnd.1]
      simp [lookupKey, Option.or]
    · simp [lookupKey, if_neg hk]

/-- `o <|> o'` is set whenever the fallback is set. -/
theorem orElse_isSome {α : Type} (o o' : Option α) (h : o'.isSome) :
    (o <|> o').isSome := by
  cases o with
  | none => simpa using h
  | some a => simp

/-! ## Claim theorems -/

/-- C9: for every valid input, a job returned by `create_job` has status
`"in_progress"` and an empty state map immediately after creation (and it is
the row appended to the jobs table). -/
theorem create_job_initial_state (s : Store) (u n : String)
    (addr cl : Option String) (nid now : Nat) :
    (create_job s u n addr cl nid now).2.status = "in_progress" ∧
    (create_job s u n addr cl nid now).2.job_state = [] ∧
    (create_job s u n addr cl nid now).1.jobs
      = s.jobs ++ [(create_job s u n addr cl nid now).2] :=
  ⟨rfl, rfl, rfl⟩

/-- C2: the claimed shallow-merge semantics fail in the code.  `dictUpdate`
(Python `dict.update`) does merge `{"a":1}` then `{"b":2}` into
`{"a":1,"b":2}` — but `update_job_state` mutates the loaded dict in place and
reassigns the same object, which SQLAlchemy's equality-based flush does not
persist for a non-empty prior map: applying patch `{"a":1}` to state `{}`
succeeds, yet the following patch `{"b":2}` is lost and the state stays
`{"a":1}` (only `updated_at` changes); likewise `{"a":{"x":1}}` then
`{"a":{"y":2}}` leaves `{"a":{"x":1}}` instead of replacing the inner
object. -/
theorem update_job_state_lost_update :
    dictUpdate (dictUpdate [] [("a", JsonVal.num 1)]) [("b", JsonVal.num 2)]
      = [("a", JsonVal.num 1), ("b", JsonVal.num 2)] ∧
    update_job_state storeU 1 "u" [("a", JsonVal.num 1)] 5
      = some (⟨[⟨1, "u", "Job A", none, none, "in_progress", [("a", JsonVal.num 1)], 0, 5⟩], []⟩,
          ⟨1, "u", "Job A", none, none, "in_progress", [("a", JsonVal.num 1)], 0, 5⟩) ∧
    update_job_state
        ⟨[⟨1, "u", "Job A", none, none, "in_progress", [("a", JsonVal.num 1)], 0, 5⟩], []⟩
        1 "u" [("b", JsonVal.num 2)] 6
      = some (⟨[⟨1, "u", "Job A", none, none, "in_progress", [("a", JsonVal.num 1)], 0, 6⟩], []⟩,
          ⟨1, "u", "Job A", none, none, "in_progress", [("a", JsonVal.num 1)], 0, 6⟩) ∧
    update_job_state storeU 1 "u" [("a", JsonVal.obj [("x", JsonVal.num 1)])] 5
      = some (⟨[⟨1, "u", "Job A", none, none, "in_progress",
            [("a", JsonVal.obj [("x", JsonVal.num 1)])], 0, 5⟩], []⟩,
          ⟨1, "u", "Job A", none, none, "in_progress",
            [("a", JsonVal.obj [("x", JsonVal.num 1)])], 0, 5⟩) ∧
    update_job_state
        ⟨[⟨1, "u", "Job A", none, none, "in_progress",
            [("a", JsonVal.obj [("x", JsonVal.num 1)])], 0, 5⟩], []⟩
        1 "u" [("a", JsonVal.obj [("y", JsonVal.num 2)])] 6
      = some (⟨[⟨1, "u", "Job A", none, none, "in_progress",
            [("a", JsonVal.obj [("x", JsonVal.num 1)])], 0, 6⟩], []⟩,
          ⟨1, "u", "Job A", none, none, "in_progress",
            [("a", JsonVal.obj [("x", JsonVal.num 1)])], 0, 6⟩) :=
  ⟨rfl, rfl, rfl, rfl, rfl⟩

/-- C4: `create_entry` first resolves the job for (owner, job_id); when that
fails it returns the NotFound-class domain error with the source's message,
leaves the store unchanged, and the endpoint maps it to a 404 — a status
distinct from the 422 used for transport-level validation failures. -/
theorem create_entry_missing_job (s : Store) (u : String) (jid : Nat)
    (t : String) (ex : Option JsonObj) (sm : Option String) (ts : Option Nat)
    (nid now : Nat) (h : get_job s jid u = none) :
    create_entry s u jid t ex sm ts nid now
      = (s, .error (.notFound (jobNotFoundMsg jid u))) ∧
    create_entry_endpoint s u jid t ex sm ts nid now
      = (s, .err 404 (jobNotFoundMsg jid u)) ∧
    (404 : Nat) ≠ validationErrorStatus := by
  refine ⟨?_, ?_, by decide⟩ <;> simp [create_entry, create_entry_endpoint, h]

/-- C4 witness: entry creation against an empty store. -/
theorem create_entry_missing_job_witness :
    create_entry ⟨[], []⟩ "u" 7 "t" none none none 1 0
      = (⟨[], []⟩, .error (.notFound (jobNotFoundMsg 7 "u"))) ∧
    create_entry_endpoint ⟨[], []⟩ "u" 7 "t" none none none 1 0
      = (⟨[], []⟩, .err 404 (jobNotFoundMsg 7 "u")) ∧
    (404 : Nat) ≠ validationErrorStatus :=
  create_entry_missing_job ⟨[], []⟩ "u" 7 "t" none none none 1 0 rfl

/-- C10: `update_job` treats a `None` field like an omitted field — the
stored value is unchanged — never clears a previously set optional field,
and leaves identity, owner, creation time and state map untouched. -/
theorem update_job_null_is_omitted (s : Store) (jid : Nat) (u : String)
    (st nm ad cl : Option String) (now : Nat) (j : Job)
    (h : get_job s jid u = some j) :
    ∃ s' j', update_job s jid u st nm ad cl now = some (s', j') ∧
      (st = none → j'.status = j.status) ∧
      (nm = none → j'.name = j.name) ∧
      (ad = none → j'.address = j.address) ∧
      (cl = none → j'.client_name = j.client_name) ∧
      (j.address.isSome → j'.address.isSome) ∧
      (j.client_name.isSome → j'.client_name.isSome) ∧
      j'.id = j.id ∧ j'.user_id = j.user_id ∧
      j'.created_at = j.created_at ∧ j'.job_state = j.job_state := by
  simp only [update_job, h]
  refine ⟨_, _, rfl, ?_, ?_, ?_, ?_, ?_, ?_, rfl, rfl, rfl, rfl⟩
  · intro hst; subst hst; rfl
  · intro hnm; subst hnm; rfl
  · intro had; subst had; simp
  · intro hcl; subst hcl; simp
  · intro hja; exact orElse_isSome ad j.address hja
  · intro hjc; exact orElse_isSome cl j.client_name hjc

/-- C10 witness: a `None`-valued update on a concrete job leaves every field
unchanged. -/
theorem update_job_null_is_omitted_witness :
    ∃ s' j', update_job storeOpt 1 "u" none none none none 9 = some (s', j') ∧
      ((none : Option String) = none → j'.status = jobOpt.status) ∧
      ((none : Option String) = none → j'.name = jobOpt.name) ∧
      ((none : Option String) = none → j'.address = jobOpt.address) ∧
      ((none : Option String) = none → j'.client_name = jobOpt.client_name) ∧
      (jobOpt.address.isSome → j'.address.isSome) ∧
      (jobOpt.client_name.isSome → j'.client_name.isSome) ∧
      j'.id = jobOpt.id ∧ j'.user_id = jobOpt.user_id ∧
      j'.created_at = jobOpt.created_at ∧ j'.job_state = jobOpt.job_state :=
  update_job_null_is_omitted storeOpt 1 "u" none none none none 9 jobOpt rfl

/-- C3: a job belonging to owner A is never returned by `get_job`,
`list_jobs` or `update_job` invoked with a different owner B, even when B
supplies A's job identifier. -/
theorem ownership_isolation (s : Store) (A B : String) (hAB : A ≠ B)
    (j : Job) (_hmem : j ∈ s.jobs) (hown : j.user_id = A) (lim : Nat)
    (st nm ad cl : Option String) (now : Nat) :
    get_job s j.id B ≠ some j ∧
    j ∉ list_jobs s B lim ∧
    (∀ s' k, update_job s j.id B st nm ad cl now = some (s', k) → k ≠ j) := by
  refine ⟨?_, ?_, ?_⟩
  · intro hg
    exact hAB (hown.symm.trans (get_job_some hg).2.2)
  · intro hmem'
    simp only [list_jobs] at hmem'
    have h1 := List.mem_of_mem_take hmem'
    rw [List.mem_insertionSort] at h1
    have h2 := (List.mem_filter.mp h1).2
    rw [beq_iff_eq] at h2
    exact hAB (hown.symm.trans h2)
  · intro s' k hup
    cases hg : get_job s j.id B with
    | none => rw [update_job, hg] at hup; exact absurd hup (by simp)
    | some job =>
      have hB := (get_job_some hg).2.2
      rw [update_job, hg] at hup
      simp only [Option.some.injEq, Prod.mk.injEq] at hup
      obtain ⟨-, hk⟩ := hup
      intro hkj
      apply hAB
      calc A = j.user_id := hown.symm
        _ = k.user_id := by rw [hkj]
        _ = B := by rw [← hk]; exact hB

/-- C3 witness: a concrete store where owner B cannot see A's job. -/
theorem ownership_isolation_witness :
    get_job storeA jobA.id "B" ≠ some jobA ∧
    jobA ∉ list_jobs storeA "B" 20 ∧
    (∀ s' k, update_job storeA jobA.id "B" none none none none 3 = some (s', k) →
      k ≠ jobA) :=
  ownership_isolation storeA "A" "B" (by decide) jobA (List.mem_singleton.mpr rfl)
    rfl 20 none none none none 3

/-- C7: `list_entries` verifies job ownership first and returns an empty
sequence (not an error) when the (owner, job) pair does not resolve;
otherwise it returns exactly that job's entries (every returned entry is
stored, belongs to the job and the owner, and every such stored entry is
returned when they all fit in the limit), ordered by `entry_ts` descending
and truncated to `limit`. -/
theorem list_entries_spec (s : Store) (u : String) (jid : Nat) (lim : Nat) :
    (get_job s jid u = none → list_entries s u jid lim = []) ∧
    List.Pairwise entryAfter (list_entries s u jid lim) ∧
    (list_entries s u jid lim).length
      ≤ min lim (s.entries.filter (entryOfJob jid u)).length ∧
    (∀ j, get_job s jid u = some j →
      (list_entries s u jid lim).length
        = min lim (s.entries.filter (entryOfJob jid u)).length ∧
      (∀ e ∈ list_entries s u jid lim,
        e ∈ s.entries ∧ e.job_id = jid ∧ e.user_id = u) ∧
      ((s.entries.filter (entryOfJob jid u)).length ≤ lim →
        ∀ e ∈ s.entries, entryOfJob jid u e = true →
          e ∈ list_entries s u jid lim)) := by
  cases hg : get_job s jid u with
  | none =>
    refine ⟨fun _ => by simp [list_entries, hg], ?_, ?_, ?_⟩
    · simp [list_entries, hg]
    · simp [list_entries, hg]
    · intro j hj; exact absurd hj (by simp)
  | some j0 =>
    have hle : list_entries s u jid lim
        = ((s.entries.filter (entryOfJob jid u)).insertionSort entryAfter).take lim := by
      simp [list_entries, hg]
    refine ⟨fun h => absurd h (by simp), ?_, ?_, ?_⟩
    · rw [hle]
      exact (List.sorted_insertionSort entryAfter _).sublist (List.take_sublist _ _)
    · rw [hle, List.length_take, List.length_insertionSort]
    · intro j hj
      refine ⟨by rw [hle, List.length_take, List.length_insertionSort], ?_, ?_⟩
      · intro e he
        rw [hle] at he
        have h1 := List.mem_of_mem_take he
        rw [List.mem_insertionSort, List.mem_filter] at h1
        have h2 := h1.2
        simp only [entryOfJob, Bool.and_eq_true, beq_iff_eq] at h2
        exact ⟨h1.1, h2.1, h2.2⟩
      · intro hlen e he hpe
        rw [hle, List.take_of_length_le (by rw [List.length_insertionSort]; exact hlen),
          List.mem_insertionSort, List.mem_filter]
        exact ⟨he, hpe⟩

/-- C7 witness: the characterization applied to an empty store (empty result,
no error) and to a store with one job and one entry. -/
theorem list_entries_spec_witness :
    list_entries storeEmpty "u" 1 20 = [] ∧
    List.Pairwise entryAfter (list_entries storeUE "u" 1 20) ∧
    ((list_entries storeUE "u" 1 20).length
        = min 20 (storeUE.entries.filter (entryOfJob 1 "u")).length ∧
      (∀ e ∈ list_entries storeUE "u" 1 20,
        e ∈ storeUE.entries ∧ e.job_id = 1 ∧ e.user_id = "u") ∧
      ((storeUE.entries.filter (entryOfJob 1 "u")).length ≤ 20 →
        ∀ e ∈ storeUE.entries, entryOfJob 1 "u" e = true →
          e ∈ list_entries storeUE "u" 1 20)) :=
  ⟨(list_entries_spec storeEmpty "u" 1 20).1 rfl,
   (list_entries_spec storeUE "u" 1 20).2.1,
   (list_entries_spec storeUE "u" 1 20).2.2.2 jobU rfl⟩

/-- C8: `list_jobs` returns the owner's jobs — every returned job is stored
and owned, and every stored owned job is returned when they all fit in the
limit — ordered by `updated_at` descending (non-increasing), truncated to
`limit`; at the API boundary the limit defaults to 20 and a supplied value is
accepted exactly when it lies in 1–100. -/
theorem list_jobs_spec (s : Store) (u : String) (lim : Nat) :
    List.Pairwise jobAfter (list_jobs s u lim) ∧
    (list_jobs s u lim).length
      = min lim (s.jobs.filter (fun j => j.user_id == u)).length ∧
    (∀ j ∈ list_jobs s u lim, j ∈ s.jobs ∧ j.user_id = u) ∧
    ((s.jobs.filter (fun j => j.user_id == u)).length ≤ lim →
      ∀ j ∈ s.jobs, j.user_id = u → j ∈ list_jobs s u lim) ∧
    list_jobs_endpoint s u none = some (list_jobs s u 20) ∧
    (∀ n, list_jobs_endpoint s u (some n)
      = if 1 ≤ n ∧ n ≤ 100 then some (list_jobs s u n) else none) := by
  refine ⟨?_, ?_, ?_, ?_, rfl, ?_⟩
  · exact (List.sorted_insertionSort jobAfter _).sublist (List.take_sublist _ _)
  · rw [list_jobs, List.length_take, List.length_insertionSort]
  · intro j hj
    have h1 := List.mem_of_mem_take hj
    rw [List.mem_insertionSort, List.mem_filter] at h1
    exact ⟨h1.1, by rw [← beq_iff_eq]; exact h1.2⟩
  · intro hlen j hj hju
    rw [list_jobs, List.take_of_length_le (by rw [List.length_insertionSort]; exact hlen),
      List.mem_insertionSort, List.mem_filter]
    exact ⟨hj, by rw [beq_iff_eq]; exact hju⟩
  · intro n
    by_cases hn : 1 ≤ n ∧ n ≤ 100 <;>
      simp [list_jobs_endpoint, validateLimit, hn]

/-- C8 witness: the listing characterization applied to a concrete store. -/
theorem list_jobs_spec_witness :
    List.Pairwise jobAfter (list_jobs storeA "A" 20) ∧
    (list_jobs storeA "A" 20).length
      = min 20 (storeA.jobs.filter (fun j => j.user_id == "A")).length ∧
    (∀ j ∈ list_jobs storeA "A" 20, j ∈ storeA.jobs ∧ j.user_id = "A") ∧
    (∀ j ∈ storeA.jobs, j.user_id = "A" → j ∈ list_jobs storeA "A" 20) ∧
    list_jobs_endpoint storeA "A" none = some (list_jobs storeA "A" 20) ∧
    list_jobs_endpoint storeA "A" (some 101) = none :=
  ⟨(list_jobs_spec storeA "A" 20).1,
   (list_jobs_spec storeA "A" 20).2.1,
   (list_jobs_spec storeA "A" 20).2.2.1,
   (list_jobs_spec storeA "A" 20).2.2.2.1 (by decide),
   (list_jobs_spec storeA "A" 20).2.2.2.2.1,
   by rw [(list_jobs_spec storeA "A" 20).2.2.2.2.2 101]; simp⟩

/-- `get_job` does not look at the entries table. -/
theorem get_job_with_entries (s : Store) (es : List Entry) (jid : Nat) (u : String) :
    get_job { s with entries := es } jid u = get_job s jid u := rfl

/-- A successful debrief response is produced by `update_job_state` applied
with the debrief state patch: the returned job and store are its results. -/
theorem debrief_ok_from_update {s : Store} {u nid t : String} {nj ne now : Nat}
    {job : Job} {entry : Entry} {s' : Store}
    (h : debrief_endpoint s u nid t nj ne now = .ok job entry s') :
    ∃ s2 jid, update_job_state s2 jid u (debriefStatePatch t now) now
      = some (s', job) := by
  cases hp : parseUUID nid with
  | some jid =>
    cases hg : get_job s jid u with
    | none => simp [debrief_endpoint, hp, hg] at h
    | some j1 =>
      simp only [debrief_endpoint, hp, hg] at h
      rcases hce : create_entry s u j1.id t (some []) none none ne now with ⟨s2, r⟩
      rw [hce] at h
      cases r with
      | error err => cases err with | notFound m => simp at h
      | ok e' =>
        simp only at h
        rcases hup : update_job_state s2 j1.id u (debriefStatePatch t now) now with - | ⟨s3, j3⟩
        · rw [hup] at h; simp at h
        · rw [hup] at h
          simp only [DebriefResult.ok.injEq] at h
          obtain ⟨h1, -, h3⟩ := h
          exact ⟨s2, j1.id, by rw [hup, h1, h3]⟩
  | none =>
    cases hn : get_job_by_name s u nid with
    | some j1 =>
      simp only [debrief_endpoint, hp, hn] at h
      rcases hce : create_entry s u j1.id t (some []) none none ne now with ⟨s2, r⟩
      rw [hce] at h
      cases r with
      | error err => cases err with | notFound m => simp at h
      | ok e' =>
        simp only at h
        rcases hup : update_job_state s2 j1.id u (debriefStatePatch t now) now with - | ⟨s3, j3⟩
        · rw [hup] at h; simp at h
        · rw [hup] at h
          simp only [DebriefResult.ok.injEq] at h
          obtain ⟨h1, -, h3⟩ := h
          exact ⟨s2, j1.id, by rw [hup, h1, h3]⟩
    | none =>
      simp only [debrief_endpoint, hp, hn] at h
      rcases hce : create_entry (create_job s u nid none none nj now).1 u
          (create_job s u nid none none nj now).2.id t (some []) none none ne now with ⟨s2, r⟩
      rw [hce] at h
      cases r with
      | error err => cases err with | notFound m => simp at h
      | ok e' =>
        simp only at h
        rcases hup : update_job_state s2 (create_job s u nid none none nj now).2.id u
            (debriefStatePatch t now) now with - | ⟨s3, j3⟩
        · rw [hup] at h; simp at h
        · rw [hup] at h
          simp only [DebriefResult.ok.injEq] at h
          obtain ⟨h1, -, h3⟩ := h
          exact ⟨s2, (create_job s u nid none none nj now).2.id, by rw [hup, h1, h3]⟩

set_option maxRecDepth 8000 in
/-- C6: the debrief state patch always sets `last_summary` to the transcript
truncated to its first 200 characters when it is longer and to the transcript
unchanged otherwise — for a length-250 transcript it is exactly the first 200
characters — but the patch does not always reach the resolved job: its
application is dropped by SQLAlchemy's change detection once the job's state
map is non-empty (in-place dict mutation, same-object reassignment), so the
repeat debrief below answers 201 with the previous `last_summary` `"short"`
instead of the new transcript `"other"`. -/
theorem debrief_repeat_keeps_old_summary :
    (∀ (t : String) (now : Nat),
      lookupKey (debriefStatePatch t now) "last_summary"
        = some (JsonVal.str
            (if t.length > 200 then String.mk (t.toList.take 200) else t))) ∧
    lookupKey (debriefStatePatch (String.mk (List.replicate 250 'a')) 0) "last_summary"
      = some (JsonVal.str (String.mk (List.replicate 200 'a'))) ∧
    debrief_endpoint storeU "u" "Job A" "short" 2 2 7
      = .ok ⟨1, "u", "Job A", none, none, "in_progress", [("last_debrief_ts", JsonVal.str "7"), ("last_summary", JsonVal.str "short")], 0, 7⟩
          ⟨2, 1, "u", 7, "short", [], none, 7⟩
          ⟨[⟨1, "u", "Job A", none, none, "in_progress", [("last_debrief_ts", JsonVal.str "7"), ("last_summary", JsonVal.str "short")], 0, 7⟩], [⟨2, 1, "u", 7, "short", [], none, 7⟩]⟩ ∧
    lookupKey (Job.job_state ⟨1, "u", "Job A", none, none, "in_progress", [("last_debrief_ts", JsonVal.str "7"), ("last_summary", JsonVal.str "short")], 0, 7⟩) "last_summary" = some (JsonVal.str "short") ∧
    debrief_endpoint ⟨[⟨1, "u", "Job A", none, none, "in_progress", [("last_debrief_ts", JsonVal.str "7"), ("last_summary", JsonVal.str "short")], 0, 7⟩], [⟨2, 1, "u", 7, "short", [], none, 7⟩]⟩ "u" "Job A" "other" 3 3 9
      = .ok ⟨1, "u", "Job A", none, none, "in_progress", [("last_debrief_ts", JsonVal.str "7"), ("last_summary", JsonVal.str "short")], 0, 9⟩
          ⟨3, 1, "u", 9, "other", [], none, 9⟩
          ⟨[⟨1, "u", "Job A", none, none, "in_progress", [("last_debrief_ts", JsonVal.str "7"), ("last_summary", JsonVal.str "short")], 0, 9⟩], [⟨2, 1, "u", 7, "short", [], none, 7⟩, ⟨3, 1, "u", 9, "other", [], none, 9⟩]⟩ ∧
    lookupKey (Job.job_state ⟨1, "u", "Job A", none, none, "in_progress", [("last_debrief_ts", JsonVal.str "7"), ("last_summary", JsonVal.str "short")], 0, 9⟩) "last_summary" = some (JsonVal.str "short") := by
  refine ⟨?_, rfl, rfl, rfl, rfl, rfl⟩
  intro t now
  simp only [debriefStatePatch, lookupKey]
  rw [if_neg (by decide)]
  simp

/-- C1 counterexample: `"11111111-1111-1111-1111-111111111111"` parses as a
valid identifier, no job with that identifier (nor that name) exists for the
owner, yet the debrief endpoint answers NotFound instead of treating the
string as a name and creating a job, as the claim requires. -/
theorem debrief_uuid_counterexample :
    parseUUID "11111111-1111-1111-1111-111111111111"
      = some 0x11111111111111111111111111111111 ∧
    get_job storeU 0x11111111111111111111111111111111 "u" = none ∧
    get_job_by_name storeU "u" "11111111-1111-1111-1111-111111111111" = none ∧
    debrief_endpoint storeU "u" "11111111-1111-1111-1111-111111111111" "t" 2 3 7
      = .errNotFound "Job not found and could not be created" ∧
    ∀ job entry s',
      debrief_endpoint storeU "u" "11111111-1111-1111-1111-111111111111" "t" 2 3 7
        ≠ .ok job entry s' := by
  refine ⟨rfl, rfl, rfl, rfl, ?_⟩
  intro job entry s' h
  have h2 : DebriefResult.errNotFound "Job not found and could not be created"
      = DebriefResult.ok job entry s' := h
  exact DebriefResult.noConfusion h2

/-- C1 (amended): debrief job resolution.  If `job_name_or_id` parses as a
valid identifier, the job with that identifier is used when it exists for the
owner, and otherwise the request fails with NotFound — there is no fallback
to name resolution.  Only when identifier parsing fails is the string treated
as a name: resolved by exact name match, and if still unresolved a new job
with that string as its name is created (given a fresh generated id). -/
theorem debrief_resolution (s : Store) (u nid t : String) (nj ne now : Nat) :
    (∀ jid, parseUUID nid = some jid → get_job s jid u = none →
      debrief_endpoint s u nid t nj ne now
        = .errNotFound "Job not found and could not be created") ∧
    (∀ jid j, parseUUID nid = some jid → get_job s jid u = some j →
      ∃ job entry s', debrief_endpoint s u nid t nj ne now = .ok job entry s' ∧
        job.id = jid ∧ job.user_id = u ∧ entry.job_id = jid ∧
        entry.transcript = t) ∧
    (∀ j, parseUUID nid = none → get_job_by_name s u nid = some j →
      ∃ job entry s', debrief_endpoint s u nid t nj ne now = .ok job entry s' ∧
        job.id = j.id ∧ job.user_id = u ∧ entry.job_id = j.id ∧
        entry.transcript = t) ∧
    ((∀ k ∈ s.jobs, k.id ≠ nj) → parseUUID nid = none →
      get_job_by_name s u nid = none →
      ∃ job entry s', debrief_endpoint s u nid t nj ne now = .ok job entry s' ∧
        job.id = nj ∧ job.name = nid ∧ job.user_id = u ∧
        entry.job_id = nj ∧ entry.transcript = t ∧
        s'.jobs.length = s.jobs.length + 1) := by
  refine ⟨?_, ?_, ?_, ?_⟩
  · intro jid hp hg
    simp [debrief_endpoint, hp, hg]
  · intro jid j hp hg
    obtain ⟨-, hjid, hju⟩ := get_job_some hg
    have hgj : get_job s j.id u = some j := by rw [hjid]; exact hg
    have hce : create_entry s u j.id t (some []) none none ne now
        = (⟨s.jobs, s.entries ++ [⟨ne, j.id, u, now, t, [], none, now⟩]⟩,
           Except.ok ⟨ne, j.id, u, now, t, [], none, now⟩) := by
      simp [create_entry, hgj]
    have hup : update_job_state
          ⟨s.jobs, s.entries ++ [⟨ne, j.id, u, now, t, [], none, now⟩]⟩ j.id u
          (debriefStatePatch t now) now
        = some (⟨s.jobs.map (fun k => if k.id == j.id
              then { j with job_state := (if j.job_state.isEmpty then dictUpdate [] (debriefStatePatch t now) else j.job_state), updated_at := now } else k),
            s.entries ++ [⟨ne, j.id, u, now, t, [], none, now⟩]⟩,
          { j with job_state := (if j.job_state.isEmpty then dictUpdate [] (debriefStatePatch t now) else j.job_state), updated_at := now }) := by
      simp [update_job_state,
        show get_job ⟨s.jobs, s.entries ++ [⟨ne, j.id, u, now, t, [], none, now⟩]⟩ j.id u
          = some j from hgj]
    have hfinal : debrief_endpoint s u nid t nj ne now
        = .ok { j with job_state := (if j.job_state.isEmpty then dictUpdate [] (debriefStatePatch t now) else j.job_state), updated_at := now }
            ⟨ne, j.id, u, now, t, [], none, now⟩
            ⟨s.jobs.map (fun k => if k.id == j.id
                then { j with job_state := (if j.job_state.isEmpty then dictUpdate [] (debriefStatePatch t now) else j.job_state), updated_at := now } else k),
              s.entries ++ [⟨ne, j.id, u, now, t, [], none, now⟩]⟩ := by
      simp only [debrief_endpoint, hp, hg, hce, hup]
    exact ⟨_, _, _, hfinal, hjid, hju, hjid, rfl⟩
  · intro j hp hn
    obtain ⟨hmem, hju, -⟩ := get_job_by_name_some hn
    obtain ⟨j2, hg2⟩ := get_job_isSome_of_mem hmem
    rw [hju] at hg2
    obtain ⟨-, hj2id, hj2u⟩ := get_job_some hg2
    have hce : create_entry s u j.id t (some []) none none ne now
        = (⟨s.jobs, s.entries ++ [⟨ne, j.id, u, now, t, [], none, now⟩]⟩,
           Except.ok ⟨ne, j.id, u, now, t, [], none, now⟩) := by
      simp [create_entry, hg2]
    have hup : update_job_state
          ⟨s.jobs, s.entries ++ [⟨ne, j.id, u, now, t, [], none, now⟩]⟩ j.id u
          (debriefStatePatch t now) now
        = some (⟨s.jobs.map (fun k => if k.id == j2.id
              then { j2 with job_state := (if j2.job_state.isEmpty then dictUpdate [] (debriefStatePatch t now) else j2.job_state), updated_at := now } else k),
            s.entries ++ [⟨ne, j.id, u, now, t, [], none, now⟩]⟩,
          { j2 with job_state := (if j2.job_state.isEmpty then dictUpdate [] (debriefStatePatch t now) else j2.job_state), updated_at := now }) := by
      simp [update_job_state,
        show get_job ⟨s.jobs, s.entries ++ [⟨ne, j.id, u, now, t, [], none, now⟩]⟩ j.id u
          = some j2 from hg2]
    have hfinal : debrief_endpoint s u nid t nj ne now
        = .ok { j2 with job_state := (if j2.job_state.isEmpty then dictUpdate [] (debriefStatePatch t now) else j2.job_state), updated_at := now }
            ⟨ne, j.id, u, now, t, [], none, now⟩
            ⟨s.jobs.map (fun k => if k.id == j2.id
                then { j2 with job_state := (if j2.job_state.isEmpty then dictUpdate [] (debriefStatePatch t now) else j2.job_state), updated_at := now } else k),
              s.entries ++ [⟨ne, j.id, u, now, t, [], none, now⟩]⟩ := by
      simp only [debrief_endpoint, hp, hn, hce, hup]
    exact ⟨_, _, _, hfinal, hj2id, hj2u, rfl, rfl⟩
  · intro hfresh hp hn
    have h1 : s.jobs.find? (fun k => k.id == nj && k.user_id == u) = none :=
      List.find?_eq_none.mpr (fun k hk => by
        simp only [Bool.and_eq_true, beq_iff_eq]
        exact fun hcon => hfresh k hk hcon.1)
    have hga : get_job ⟨s.jobs ++ [({ id := nj, user_id := u, name := nid, address := none, client_name := none, status := "in_progress", job_state := [], created_at := now, updated_at := now } : Job)], s.entries⟩ nj u = some ({ id := nj, user_id := u, name := nid, address := none, client_name := none, status := "in_progress", job_state := [], created_at := now, updated_at := now } : Job) := by
      simp only [get_job, List.find?_append, h1]
      simp
    have hce : create_entry ⟨s.jobs ++ [({ id := nj, user_id := u, name := nid, address := none, client_name := none, status := "in_progress", job_state := [], created_at := now, updated_at := now } : Job)], s.entries⟩ u nj t (some []) none none ne now = (⟨s.jobs ++ [({ id := nj, user_id := u, name := nid, address := none, client_name := none, status := "in_progress", job_state := [], created_at := now, updated_at := now } : Job)], s.entries ++ [(⟨ne, nj, u, now, t, [], none, now⟩ : Entry)]⟩, Except.ok (⟨ne, nj, u, now, t, [], none, now⟩ : Entry)) := by
      simp [create_entry, hga]
    have hup : update_job_state ⟨s.jobs ++ [({ id := nj, user_id := u, name := nid, address := none, client_name := none, status := "in_progress", job_state := [], created_at := now, updated_at := now } : Job)], s.entries ++ [(⟨ne, nj, u, now, t, [], none, now⟩ : Entry)]⟩ nj u (debriefStatePatch t now) now = some (⟨(s.jobs ++ [({ id := nj, user_id := u, name := nid, address := none, client_name := none, status := "in_progress", job_state := [], created_at := now, updated_at := now } : Job)]).map (fun k => if k.id == nj then ({ id := nj, user_id := u, name := nid, address := none, client_name := none, status := "in_progress", job_state := dictUpdate [] (debriefStatePatch t now), created_at := now, updated_at := now } : Job) else k), s.entries ++ [(⟨ne, nj, u, now, t, [], none, now⟩ : Entry)]⟩, ({ id := nj, user_id := u, name := nid, address := none, client_name := none, status := "in_progress", job_state := dictUpdate [] (debriefStatePatch t now), created_at := now, updated_at := now } : Job)) := by
      simp [update_job_state, show get_job ⟨s.jobs ++ [({ id := nj, user_id := u, name := nid, address := none, client_name := none, status := "in_progress", job_state := [], created_at := now, updated_at := now } : Job)], s.entries ++ [(⟨ne, nj, u, now, t, [], none, now⟩ : Entry)]⟩ nj u = some ({ id := nj, user_id := u, name := nid, address := none, client_name := none, status := "in_progress", job_state := [], created_at := now, updated_at := now } : Job) from hga]
    have hfinal : debrief_endpoint s u nid t nj ne now = .ok ({ id := nj, user_id := u, name := nid, address := none, client_name := none, status := "in_progress", job_state := dictUpdate [] (debriefStatePatch t now), created_at := now, updated_at := now } : Job) (⟨ne, nj, u, now, t, [], none, now⟩ : Entry) ⟨(s.jobs ++ [({ id := nj, user_id := u, name := nid, address := none, client_name := none, status := "in_progress", job_state := [], created_at := now, updated_at := now } : Job)]).map (fun k => if k.id == nj then ({ id := nj, user_id := u, name := nid, address := none, client_name := none, status := "in_progress", job_state := dictUpdate [] (debriefStatePatch t now), created_at := now, updated_at := now } : Job) else k), s.entries ++ [(⟨ne, nj, u, now, t, [], none, now⟩ : Entry)]⟩ := by
      simp only [debrief_endpoint, hp, hn, create_job, hce, hup]
    exact ⟨_, _, _, hfinal, rfl, rfl, rfl, rfl, rfl, by simp⟩

/-- C1 witness: the four resolution branches exercised on concrete stores —
a parsed identifier with no matching job (NotFound), a parsed identifier with
a matching job, a name that resolves, and a fresh name that creates a job. -/
theorem debrief_resolution_witness :
    debrief_endpoint storeU "u" "00000000000000000000000000000005" "t" 2 3 7
      = .errNotFound "Job not found and could not be created" ∧
    (∃ job entry s',
      debrief_endpoint storeU "u" "00000000000000000000000000000001" "t" 2 3 7
        = .ok job entry s' ∧
      job.id = 1 ∧ job.user_id = "u" ∧ entry.job_id = 1 ∧
      entry.transcript = "t") ∧
    (∃ job entry s',
      debrief_endpoint storeU "u" "Job A" "t" 2 3 7 = .ok job entry s' ∧
      job.id = jobU.id ∧ job.user_id = "u" ∧ entry.job_id = jobU.id ∧
      entry.transcript = "t") ∧
    (∃ job entry s',
      debrief_endpoint storeU "u" "123 Main St Reno" "t" 2 3 7 = .ok job entry s' ∧
      job.id = 2 ∧ job.name = "123 Main St Reno" ∧ job.user_id = "u" ∧
      entry.job_id = 2 ∧ entry.transcript = "t" ∧
      s'.jobs.length = storeU.jobs.length + 1) :=
  ⟨(debrief_resolution storeU "u" "00000000000000000000000000000005" "t" 2 3 7).1
      5 rfl rfl,
   (debrief_resolution storeU "u" "00000000000000000000000000000001" "t" 2 3 7).2.1
      1 jobU rfl rfl,
   (debrief_resolution storeU "u" "Job A" "t" 2 3 7).2.2.1 jobU rfl rfl,
   (debrief_resolution storeU "u" "123 Main St Reno" "t" 2 3 7).2.2.2
      (by decide) rfl rfl⟩

/-- A single `%` pattern matches every string. -/
theorem likeMatch_percent_only (s : List Char) : likeMatch ['%'] s = true := by
  rw [likeMatch.eq_def]
  dsimp only
  rw [if_pos rfl, List.any_eq_true]
  exact ⟨[], (List.mem_tails _ _).mpr List.nil_suffix, rfl⟩

/-- For a wildcard-free prefix `q`, the pattern `q ++ "%"` matches exactly
the strings whose case folding starts with the case folding of `q`. -/
theorem likeMatch_plain_percent {q : List Char}
    (hq : ∀ c ∈ q, c ≠ '%' ∧ c ≠ '_' ∧ c ≠ '\\') (s : List Char) :
    likeMatch (q ++ ['%']) s = true
      ↔ (q.map Char.toLower) <+: (s.map Char.toLower) := by
  induction q generalizing s with
  | nil => simp [likeMatch_percent_only]
  | cons c q' ih =>
    obtain ⟨hc1, hc2, hc3⟩ := hq c (List.mem_cons_self ..)
    have hq' : ∀ x ∈ q', x ≠ '%' ∧ x ≠ '_' ∧ x ≠ '\\' :=
      fun x hx => hq x (List.mem_cons_of_mem _ hx)
    cases s with
    | nil =>
      rw [List.cons_append, likeMatch.eq_def]
      dsimp only
      rw [if_neg hc1, if_neg hc3]
      simp
    | cons d s' =>
      rw [List.cons_append, likeMatch.eq_def]
      dsimp only
      rw [if_neg hc1, if_neg hc3, if_neg hc2]
      rw [Bool.and_eq_true, beq_iff_eq]
      simp only [List.map_cons, List.cons_prefix_cons]
      rw [ih hq']

/-- A suffix of a mapped list is the image of a suffix. -/
theorem suffix_map_inv {T l : List Char} {f : Char → Char}
    (h : T <:+ l.map f) : ∃ t, t <:+ l ∧ T = t.map f := by
  obtain ⟨pre, hpre⟩ := h
  obtain ⟨l₁, l₂, hl, -, h2⟩ := List.map_eq_append_iff.mp hpre.symm
  exact ⟨l₂, ⟨l₁, hl.symm⟩, h2.symm⟩

/-- For a wildcard-free query, the `%query%` pattern matches exactly the
strings whose case folding contains the query's case folding as an infix. -/
theorem likeMatch_searchPattern {q : List Char}
    (hq : ∀ c ∈ q, c ≠ '%' ∧ c ≠ '_' ∧ c ≠ '\\') (s : List Char) :
    likeMatch ('%' :: (q ++ ['%'])) s = true
      ↔ (q.map Char.toLower) <:+: (s.map Char.toLower) := by
  rw [likeMatch.eq_def]
  dsimp only
  rw [if_pos rfl, List.any_eq_true]
  constructor
  · rintro ⟨t, hmem, hmatch⟩
    have hsuf : t <:+ s := (List.mem_tails _ _).mp hmem
    have hpre := (likeMatch_plain_percent hq t).mp hmatch
    exact List.infix_iff_prefix_suffix.mpr
      ⟨t.map Char.toLower, hpre, hsuf.map _⟩
  · intro hinf
    obtain ⟨T, hpre, hsuf⟩ := List.infix_iff_prefix_suffix.mp hinf
    obtain ⟨t, hts, hT⟩ := suffix_map_inv hsuf
    exact ⟨t, (List.mem_tails _ _).mpr hts,
      (likeMatch_plain_percent hq t).mpr (hT ▸ hpre)⟩

/-- `icontains` decides case-folded infix containment. -/
theorem icontains_iff (hay needle : List Char) :
    icontains hay needle = true
      ↔ (needle.map Char.toLower) <:+: (hay.map Char.toLower) := by
  simp only [icontains, List.any_eq_true]
  constructor
  · rintro ⟨t, hmem, hpref⟩
    exact List.infix_iff_prefix_suffix.mpr
      ⟨t, List.isPrefixOf_iff_prefix.mp hpref, (List.mem_tails _ _).mp hmem⟩
  · intro hinf
    obtain ⟨T, hpre, hsuf⟩ := List.infix_iff_prefix_suffix.mp hinf
    exact ⟨T, (List.mem_tails _ _).mpr hsuf, List.isPrefixOf_iff_prefix.mpr hpre⟩

/-- On wildcard-free queries, the code's `ILIKE` test agrees with
case-insensitive substring containment. -/
theorem likeMatch_eq_icontains {q : String}
    (hq : ∀ c ∈ q.toList, c ≠ '%' ∧ c ≠ '_' ∧ c ≠ '\\') (s : List Char) :
    likeMatch (searchPattern q) s = icontains s q.toList := by
  simp only [searchPattern]
  rw [Bool.eq_iff_iff, likeMatch_searchPattern hq s, icontains_iff]

/-- On wildcard-free queries, the code's search row predicate agrees with the
spec's substring row predicate. -/
theorem entryMatches_congr {jid : Nat} {u : String} {q : String}
    (hq : ∀ c ∈ q.toList, c ≠ '%' ∧ c ≠ '_' ∧ c ≠ '\\') (e : Entry) :
    entryMatchesQuery jid u q e = entryMatchesSpec jid u q e := by
  simp only [entryMatchesQuery, entryMatchesSpec, likeMatch_eq_icontains hq]

/-- C5 counterexample: the query `"_"` is not contained in the stored
transcript as a substring (and there is no summary), yet `search_entries`
returns the entry, because the unescaped query is interpolated into the
`ILIKE` pattern and `_` acts as a one-character wildcard. -/
theorem search_wildcard_counterexample :
    search_entries storeUE "u" 1 "_" 10 = [entryU] ∧
    entryMatchesSpec 1 "u" "_" entryU = false ∧
    search_entries_spec storeUE "u" 1 "_" 10 = [] :=
  ⟨rfl, rfl, rfl⟩

/-- C5 (amended): for every query free of the `ILIKE` metacharacters `%`,
`_` and `\`, `search_entries` coincides with the spec's description: it
returns exactly the entries of the owner's job whose transcript or summary
contains the query as a case-insensitive substring, as a pure filter, ordered
by `entry_ts` descending and truncated to `limit`.  (For queries containing
a metacharacter the code performs SQL pattern matching instead.) -/
theorem search_entries_substring (s : Store) (u : String) (jid : Nat)
    (q : String) (lim : Nat)
    (hq : ∀ c ∈ q.toList, c ≠ '%' ∧ c ≠ '_' ∧ c ≠ '\\') :
    search_entries s u jid q lim = search_entries_spec s u jid q lim ∧
    List.Pairwise entryAfter (search_entries s u jid q lim) ∧
    (search_entries s u jid q lim).length ≤ lim ∧
    (∀ e ∈ search_entries s u jid q lim,
      e ∈ s.entries ∧ e.job_id = jid ∧ e.user_id = u ∧
      (icontains e.transcript.toList q.toList = true ∨
        ∃ sm, e.summary = some sm ∧ icontains sm.toList q.toList = true)) := by
  have hfilter : s.entries.filter (entryMatchesQuery jid u q)
      = s.entries.filter (entryMatchesSpec jid u q) :=
    List.filter_congr (fun e _ => entryMatches_congr hq e)
  cases hg : get_job s jid u with
  | none =>
    refine ⟨?_, ?_, ?_, ?_⟩ <;> simp [search_entries, search_entries_spec, hg]
  | some j =>
    have h1 : search_entries s u jid q lim
        = ((s.entries.filter (entryMatchesQuery jid u q)).insertionSort
            entryAfter).take lim := by
      simp [search_entries, hg]
    have h2 : search_entries_spec s u jid q lim
        = ((s.entries.filter (entryMatchesSpec jid u q)).insertionSort
            entryAfter).take lim := by
      simp [search_entries_spec, hg]
    refine ⟨by rw [h1, h2, hfilter], ?_, ?_, ?_⟩
    · rw [h1]
      exact (List.sorted_insertionSort entryAfter _).sublist (List.take_sublist _ _)
    · rw [h1, List.length_take]
      exact Nat.min_le_left _ _
    · intro e he
      rw [h1] at he
      have hm := List.mem_of_mem_take he
      rw [List.mem_insertionSort, List.mem_filter] at hm
      have hp := hm.2
      rw [entryMatches_congr hq] at hp
      simp only [entryMatchesSpec, Bool.and_eq_true, beq_iff_eq,
        Bool.or_eq_true] at hp
      obtain ⟨⟨hjid, hju⟩, hsum⟩ := hp
      refine ⟨hm.1, hjid, hju, ?_⟩
      cases hsum with
      | inl h => exact Or.inl h
      | inr h =>
        cases hsm : e.summary with
        | none => rw [hsm] at h; exact Bool.noConfusion h
        | some sm => rw [hsm] at h; exact Or.inr ⟨sm, rfl, h⟩

/-- C5 witness: the substring characterization applied to the query
`"leak"` against a store whose entry transcript is
`"Found a LEAK under sink"`. -/
theorem search_entries_substring_witness :
    search_entries storeUE "u" 1 "leak" 10
      = search_entries_spec storeUE "u" 1 "leak" 10 ∧
    List.Pairwise entryAfter (search_entries storeUE "u" 1 "leak" 10) ∧
    (search_entries storeUE "u" 1 "leak" 10).length ≤ 10 ∧
    (∀ e ∈ search_entries storeUE "u" 1 "leak" 10,
      e ∈ storeUE.entries ∧ e.job_id = 1 ∧ e.user_id = "u" ∧
      (icontains e.transcript.toList "leak".toList = true ∨
        ∃ sm, e.summary = some sm ∧ icontains sm.toList "leak".toList = true)) :=
  search_entries_substring storeUE "u" 1 "leak" 10 (by decide)
